import Mathlib

/-!
Verification of the wasi reqwest facade (`src/wasi/client.rs`,
`src/wasi/response.rs`): header merging, builder configuration,
timeout-bounded request execution, and response body decoding.

Header maps (`http::HeaderMap`) are modelled as ordered association lists of
(name, value) pairs with duplicates allowed per name; names are taken already
normalized (the `http` crate stores lowercase names).  Lookup (`HeaderMap::get`)
returns the first value for a name.
-/

namespace Reqwest

/-- A header name or value, modelled as a string. -/
abbrev HeaderValue := String

/-- `http::HeaderMap`: ordered multimap as an association list. -/
abbrev HeaderMap := List (String × HeaderValue)

/-- `HeaderMap::contains_key` / occupied-entry test: is some pair keyed `k` present? -/
def hmContains (m : HeaderMap) (k : String) : Bool :=
  m.any (fun p => p.1 == k)

/-- `HeaderMap::get`: the first value stored under `k`, if any. -/
def hmGet (m : HeaderMap) (k : String) : Option HeaderValue :=
  (m.find? (fun p => p.1 == k)).map (fun p => p.2)

/-- `HeaderMap::insert`: drop every existing value under `k`, then add `(k, v)`. -/
def hmInsert (m : HeaderMap) (k : String) (v : HeaderValue) : HeaderMap :=
  (m.filter (fun p => !(p.1 == k))) ++ [(k, v)]

/-- `Client::merge_headers` (client.rs 117-127): for each (key, value) of the
client's default headers, insert into the request headers only when the entry
for that key is vacant.  A vacant-entry insert appends at the end of the map.
The loop over `defaults` is rendered as recursion on the defaults list. -/
def mergeHeaders (target : HeaderMap) (defaults : HeaderMap) : HeaderMap :=
  match defaults with
  | [] => target
  | kv :: rest =>
      mergeHeaders (if hmContains target kv.1 then target else target ++ [kv]) rest

/-! ### Helper lemmas about header maps -/

theorem hmGet_append (l₁ l₂ : HeaderMap) (k : String) :
    hmGet (l₁ ++ l₂) k = ((hmGet l₁ k).orElse (fun _ => hmGet l₂ k)) := by
  induction l₁ with
  | nil => simp [hmGet]
  | cons p t ih =>
      by_cases h : p.1 = k
      · simp [hmGet, h]
      · simp only [hmGet, List.cons_append, List.find?] at *
        rw [show (p.1 == k) = false by simp [h]]
        simpa [hmGet] using ih

theorem hmGet_isSome_of_contains {m : HeaderMap} {k : String}
    (h : hmContains m k = true) : (hmGet m k).isSome := by
  induction m with
  | nil => simp [hmContains] at h
  | cons p t ih =>
      by_cases hp : p.1 = k
      · simp [hmGet, List.find?, hp]
      · simp only [hmContains, List.any_cons, Bool.or_eq_true, beq_iff_eq] at h
        rcases h with h | h
        · exact absurd h hp
        · simp only [hmGet, List.find?]
          rw [show (p.1 == k) = false by simp [hp]]
          exact ih h

theorem hmGet_none_of_not_contains {m : HeaderMap} {k : String}
    (h : hmContains m k = false) : hmGet m k = none := by
  induction m with
  | nil => simp [hmGet]
  | cons p t ih =>
      simp only [hmContains, List.any_cons, Bool.or_eq_false_iff, beq_eq_false_iff_ne] at h
      simp only [hmGet, List.find?]
      rw [show (p.1 == k) = false by simp [h.1]]
      exact ih (by simpa [hmContains] using h.2)

/-- Merging only appends: the original request headers stay as an unchanged
prefix of the merged map. -/
theorem mergeHeaders_eq_append (defaults : HeaderMap) :
    ∀ target : HeaderMap, ∃ ext : HeaderMap,
      mergeHeaders target defaults = target ++ ext := by
  induction defaults with
  | nil => intro target; exact ⟨[], by simp [mergeHeaders]⟩
  | cons kv rest ih =>
      intro target
      cases h : hmContains target kv.1 with
      | true =>
          rcases ih target with ⟨ext, hext⟩
          exact ⟨ext, by simp [mergeHeaders, h, hext]⟩
      | false =>
          rcases ih (target ++ [kv]) with ⟨ext, hext⟩
          refine ⟨kv :: ext, ?_⟩
          simp only [mergeHeaders, h, Bool.false_eq_true, if_false]
          simpa using hext

/-- Keys present in the target survive merging with the same first value. -/
theorem hmGet_mergeHeaders_of_contains (defaults : HeaderMap) {target : HeaderMap}
    {k : String} (h : hmContains target k = true) :
    hmGet (mergeHeaders target defaults) k = hmGet target k := by
  rcases mergeHeaders_eq_append defaults target with ⟨ext, hext⟩
  rw [hext, hmGet_append]
  rcases Option.isSome_iff_exists.mp (hmGet_isSome_of_contains h) with ⟨v, hv⟩
  simp [hv]

theorem hmContains_append (l₁ l₂ : HeaderMap) (k : String) :
    hmContains (l₁ ++ l₂) k = (hmContains l₁ k || hmContains l₂ k) := by
  simp [hmContains]

/-- A key absent from the target but present in the defaults ends up bound to
the defaults' first value for it. -/
theorem hmGet_mergeHeaders_of_not_contains (defaults : HeaderMap) :
    ∀ target : HeaderMap, ∀ k : String,
      hmContains target k = false → hmContains defaults k = true →
      hmGet (mergeHeaders target defaults) k = hmGet defaults k := by
  induction defaults with
  | nil => intro _ _ _ hD; simp [hmContains] at hD
  | cons kv rest ih =>
      intro target k hT hD
      by_cases hk : kv.1 = k
      · have hvac : hmContains target kv.1 = false := by rw [hk]; exact hT
        simp only [mergeHeaders, hvac, Bool.false_eq_true, if_false]
        have hcont : hmContains (target ++ [kv]) k = true := by
          rw [hmContains_append]
          simp [hmContains, hk]
        rw [hmGet_mergeHeaders_of_contains rest hcont, hmGet_append,
            hmGet_none_of_not_contains hT]
        simp [hmGet, hk]
      · have hD' : hmContains rest k = true := by
          simp only [hmContains, List.any_cons, Bool.or_eq_true, beq_iff_eq] at hD
          rcases hD with h | h
          · exact absurd h hk
          · simpa [hmContains] using h
        have hget : hmGet (kv :: rest) k = hmGet rest k := by
          simp only [hmGet, List.find?]
          rw [show (kv.1 == k) = false by simp [hk]]
        rw [hget]
        cases hvac : hmContains target kv.1 with
        | true =>
            simp only [mergeHeaders, hvac, if_true]
            exact ih target k hT hD'
        | false =>
            simp only [mergeHeaders, hvac, Bool.false_eq_true, if_false]
            refine ih (target ++ [kv]) k ?_ hD'
            rw [hmContains_append, hT]
            simp [hmContains, hk]

/-! ### Error taxonomy

Modelled from the spec: the crate's `error` module is not part of the excerpt;
section 7 gives the taxonomy `Builder / Url / Request / Body / Decode / Status`,
with `Request` carrying the distinguished "timed out" cause, and `Status`
carrying the response's URL and status code. -/

/-- Cause of a `Request`-kind error: the distinguished "timed out" cause, a
transport-level failure, or a failed conversion to the transport's native
request representation. -/
inductive Cause where
  | timedOut
  | transport (e : String)
  | convert (e : String)
  deriving DecidableEq, Repr

/-- Modelled from the spec: the crate error type (section 7 taxonomy). -/
inductive Error where
  | builder (msg : String)
  | url (msg : String)
  | request (cause : Cause)
  | body (msg : String)
  | decode (msg : String)
  | status (url : String) (code : Nat)
  deriving DecidableEq, Repr

/-- `Error::is_timeout`: a Request-kind error whose cause is "timed out". -/
def Error.isTimeout : Error → Bool
  | .request .timedOut => true
  | _ => false

/-! ### Config, ClientBuilder, Client (client.rs 172-246) -/

/-- `Config` (client.rs 228-231): default headers plus an optional deferred
construction error. -/
structure Config where
  headers : HeaderMap
  error : Option Error
  deriving DecidableEq, Repr

/-- `Config::default` (client.rs 233-240): empty headers, no error. -/
def Config.default : Config := { headers := [], error := none }

/-- `ClientBuilder` (client.rs 18-20). -/
structure ClientBuilder where
  config : Config
  deriving DecidableEq, Repr

/-- `Client` (client.rs 11-15): the shared configuration.  The transport handle
(`wstd_client`) is an external collaborator with no observable state here. -/
structure Client where
  config : Config
  deriving DecidableEq, Repr

/-- `ClientBuilder::new` (client.rs 176-180). -/
def ClientBuilder.new : ClientBuilder := { config := Config.default }

/-- `ClientBuilder::build` (client.rs 183-193): fail with the deferred error if
one was recorded, otherwise take the config into a new `Client`. -/
def ClientBuilder.build (b : ClientBuilder) : Except Error Client :=
  match b.config.error with
  | some err => .error err
  | none => .ok { config := b.config }

/-- `ClientBuilder::user_agent` (client.rs 196-210).  Its argument is the
result of `value.try_into()` on the caller's value: `Ok` inserts/overwrites the
`user-agent` entry, `Err` records a deferred builder error and leaves the
headers untouched. -/
def ClientBuilder.userAgent (b : ClientBuilder) (value : Except String HeaderValue) :
    ClientBuilder :=
  match value with
  | .ok v =>
      { b with config := { b.config with headers := hmInsert b.config.headers "user-agent" v } }
  | .error e =>
      { b with config := { b.config with error := some (.builder e) } }

/-- Insert every pair of `hs` into `m` in iteration order (the loop body of
`default_headers`). -/
def insertAll (m : HeaderMap) : HeaderMap → HeaderMap
  | [] => m
  | (k, v) :: rest => insertAll (hmInsert m k v) rest

/-- `ClientBuilder::default_headers` (client.rs 213-218): insert every
(name, value) pair of the given collection, overwriting existing entries. -/
def ClientBuilder.defaultHeaders (b : ClientBuilder) (hs : HeaderMap) : ClientBuilder :=
  { b with config := { b.config with headers := insertAll b.config.headers hs } }

/-- `Client::new` (client.rs 24-26) is `builder().build().unwrap()`; the
`unwrap` is modelled as `Option`: `none` would be a panic. -/
def Client.new : Option Client :=
  match ClientBuilder.new.build with
  | .ok c => some c
  | .error _ => none

/-! ### Response model (response.rs)

The transport body (`wstd::http::Body`, an `http_body` stream) is an external
collaborator; modelled from the spec as the finite sequence of events produced
by polling it frame-by-frame: a data frame, a non-data (trailers) frame, or an
error, followed by end of body. -/

/-- A frame of the body stream (glossary: data frames carry payload bytes). -/
inductive Frame where
  | data (bytes : List Nat)
  | trailers
  deriving DecidableEq, Repr

/-- One poll result of the underlying body: a frame or a stream error. -/
inductive FrameEvent where
  | frame (f : Frame)
  | errE (e : String)
  deriving DecidableEq, Repr

/-- `Response` (response.rs 19-25): the transport response (status, headers,
body event sequence) plus the resolved final URL. -/
structure Response where
  status : Nat
  headers : HeaderMap
  body : List FrameEvent
  url : String
  deriving DecidableEq, Repr

/-- `BodyExt::collect` as used by `Response::bytes` (response.rs 199-203):
concatenate the data frames; a stream error surfaces as a Body-kind error. -/
def collectBytes : List FrameEvent → Except Error (List Nat)
  | [] => .ok []
  | .frame (.data b) :: rest => (collectBytes rest).map (fun t => b ++ t)
  | .frame .trailers :: rest => collectBytes rest
  | .errE e :: _ => .error (.body e)

/-- `Response::bytes` (response.rs 199-203). -/
def Response.bytes (r : Response) : Except Error (List Nat) :=
  collectBytes r.body

/-- `DataStream::poll_next` (response.rs 255-270), drained to a list of stream
items: data frames are yielded, non-data frames skipped, a poll error is
yielded as an error item, end of body ends the stream. -/
def dataStream : List FrameEvent → List (Except Error (List Nat))
  | [] => []
  | .frame (.data b) :: rest => .ok b :: dataStream rest
  | .frame .trailers :: rest => dataStream rest
  | .errE e :: rest => .error (.body e) :: dataStream rest

/-- `Response::bytes_stream` (response.rs 207-209): `DataStream` over the
response body (per the spec's design note, the `self.res` field reference is
read as the response's own body). -/
def Response.bytesStream (r : Response) : List (Except Error (List Nat)) :=
  dataStream r.body

/-- `StatusCode::is_client_error`: 400-499. -/
def isClientError (status : Nat) : Prop := 400 ≤ status ∧ status ≤ 499

/-- `StatusCode::is_server_error`: 500-599. -/
def isServerError (status : Nat) : Prop := 500 ≤ status ∧ status ≤ 599

instance (s : Nat) : Decidable (isClientError s) := by unfold isClientError; infer_instance

instance (s : Nat) : Decidable (isServerError s) := by unfold isServerError; infer_instance

/-- `Response::error_for_status` (response.rs 214-221). -/
def Response.errorForStatus (r : Response) : Except Error Response :=
  if isClientError r.status ∨ isServerError r.status then
    .error (.status r.url r.status)
  else
    .ok r

/-- `Response::error_for_status_ref` (response.rs 224-231): same classification,
passing the response through by reference. -/
def Response.errorForStatusRef (r : Response) : Except Error Response :=
  if isClientError r.status ∨ isServerError r.status then
    .error (.status r.url r.status)
  else
    .ok r

/-! ### Request execution (client.rs 129-147)

The transport (`wstd::http::Client::send`) and timer are external
collaborators.  Modelled from the spec: a send is an awaitable that either
completes at some time with a transport result, or never completes; the
`timeout(d)` combinator lets the send win exactly when it completes strictly
before the timer, and otherwise cancels it and reports elapse. -/

/-- The transport's native request representation. -/
structure WstdRequest where
  headers : HeaderMap
  url : String
  deriving DecidableEq, Repr

/-- The transport's raw response. -/
structure WstdResponse where
  status : Nat
  headers : HeaderMap
  body : List FrameEvent
  deriving DecidableEq, Repr

/-- `Response::new` (response.rs 28-33): pair the transport's raw response with
the snapshotted URL. -/
def Response.mk' (w : WstdResponse) (url : String) : Response :=
  { status := w.status, headers := w.headers, body := w.body, url := url }

/-- `Request` (super::Request, outside the excerpt).  Modelled from the spec:
method/body are irrelevant here; `wstdConvertible` stands for whether
conversion to the transport's native representation succeeds. -/
structure Request where
  headers : HeaderMap
  url : String
  timeout : Option Nat
  wstdConvertible : Bool
  deriving DecidableEq, Repr

/-- `Request::as_wstd` — Modelled from the spec: conversion failure surfaces as
a Request-kind error. -/
def Request.asWstd (req : Request) : Except Error WstdRequest :=
  if req.wstdConvertible then .ok { headers := req.headers, url := req.url }
  else .error (.request (.convert "conversion failed"))

/-- Modelled from the spec: the behaviour of one in-flight transport send — it
either completes at time `t` with a transport result, or never completes. -/
inductive SendOutcome where
  | completesAt (t : Nat) (result : Except String WstdResponse)
  | never
  deriving Repr

/-- Result of driving one `execute` call to quiescence: the call either
diverges (an un-timed send that never completes) or is done with a result. -/
inductive ExecResult where
  | diverges
  | done (r : Except Error Response)
  deriving Repr

/-- Map a completed transport result as execute_request does (client.rs
144-146): transport failure becomes a Request-kind error, success becomes a
Response paired with the snapshotted URL. -/
def sendResultToResponse (r : Except String WstdResponse) (url : String) :
    Except Error Response :=
  match r with
  | .ok w => .ok (Response.mk' w url)
  | .error e => .error (.request (.transport e))

/-- `Client::execute_request` (client.rs 129-147): merge default headers,
snapshot URL and timeout, convert the request, then either race the send
against the timer (timer elapse ⇒ Request-kind "timed out" error) or await it
directly. -/
def Client.executeRequest (cl : Client) (send : WstdRequest → SendOutcome)
    (req : Request) : ExecResult :=
  let req' : Request := { req with headers := mergeHeaders req.headers cl.config.headers }
  let url := req'.url
  match req'.asWstd with
  | .error e => .done (.error e)
  | .ok wreq =>
      match req'.timeout with
      | some d =>
          match send wreq with
          | .never => .done (.error (.request .timedOut))
          | .completesAt t r =>
              if t < d then .done (sendResultToResponse r url)
              else .done (.error (.request .timedOut))
      | none =>
          match send wreq with
          | .never => .diverges
          | .completesAt _ r => .done (sendResultToResponse r url)

/-- `Client::execute` (client.rs 112-114) simply delegates. -/
def Client.execute (cl : Client) (send : WstdRequest → SendOutcome)
    (req : Request) : ExecResult :=
  cl.executeRequest send req

/-! ### UTF-8 with replacement (the `charset` decode path)

`encoding_rs` is an external collaborator.  Modelled from the spec: `decode`
strips a leading byte-order mark, decodes with the chosen encoding, and
replaces each malformed sequence by U+FFFD (the WHATWG decoder: an invalid
lead byte consumes one byte and emits U+FFFD; a missing/invalid continuation
byte emits U+FFFD and resumes at the offending byte).  Strings are modelled as
their sequences of Unicode scalar values. -/

/-- A Unicode scalar value: below 0x110000 and not a surrogate. -/
def validScalar (c : Nat) : Prop := c < 0x110000 ∧ ¬(0xD800 ≤ c ∧ c ≤ 0xDFFF)

instance (c : Nat) : Decidable (validScalar c) := by unfold validScalar; infer_instance

/-- UTF-8 encoding of one scalar value. -/
def utf8EncodeChar (c : Nat) : List Nat :=
  if c ≤ 0x7F then [c]
  else if c ≤ 0x7FF then [0xC0 + c / 64, 0x80 + c % 64]
  else if c ≤ 0xFFFF then [0xE0 + c / 4096, 0x80 + (c / 64) % 64, 0x80 + c % 64]
  else [0xF0 + c / 0x40000, 0x80 + (c / 4096) % 64, 0x80 + (c / 64) % 64, 0x80 + c % 64]

/-- UTF-8 encoding of a scalar-value sequence. -/
def utf8Encode : List Nat → List Nat
  | [] => []
  | c :: cs => utf8EncodeChar c ++ utf8Encode cs

/-- A UTF-8 continuation byte. -/
def isCont (b : Nat) : Prop := 0x80 ≤ b ∧ b ≤ 0xBF

instance (b : Nat) : Decidable (isCont b) := by unfold isCont; infer_instance

/-- Admissible first continuation byte after a three-byte lead (WHATWG ranges:
`E0` narrows to `A0..BF`, `ED` to `80..9F`). -/
def cont3ok (b c1 : Nat) : Prop :=
  (b = 0xE0 ∧ 0xA0 ≤ c1 ∧ c1 ≤ 0xBF) ∨
  (b = 0xED ∧ 0x80 ≤ c1 ∧ c1 ≤ 0x9F) ∨
  (b ≠ 0xE0 ∧ b ≠ 0xED ∧ isCont c1)

instance (b c1 : Nat) : Decidable (cont3ok b c1) := by unfold cont3ok; infer_instance

/-- Admissible first continuation byte after a four-byte lead (`F0` narrows to
`90..BF`, `F4` to `80..8F`). -/
def cont4ok (b c1 : Nat) : Prop :=
  (b = 0xF0 ∧ 0x90 ≤ c1 ∧ c1 ≤ 0xBF) ∨
  (b = 0xF4 ∧ 0x80 ≤ c1 ∧ c1 ≤ 0x8F) ∨
  (b ≠ 0xF0 ∧ b ≠ 0xF4 ∧ isCont c1)

instance (b c1 : Nat) : Decidable (cont4ok b c1) := by unfold cont4ok; infer_instance

/-- One step of the replacing UTF-8 decoder: from a lead byte and the remaining
input, produce the decoded scalar (U+FFFD on a malformed sequence), the input
left over, and whether the step was well-formed. -/
def utf8Step (b : Nat) (rest : List Nat) : Nat × List Nat × Bool :=
  if b ≤ 0x7F then (b, rest, true)
  else if b < 0xC2 then (0xFFFD, rest, false)
  else if b ≤ 0xDF then
    match rest with
    | [] => (0xFFFD, [], false)
    | c1 :: r1 =>
        if isCont c1 then ((b - 0xC0) * 64 + (c1 - 0x80), r1, true)
        else (0xFFFD, c1 :: r1, false)
  else if b ≤ 0xEF then
    match rest with
    | [] => (0xFFFD, [], false)
    | c1 :: r1 =>
        if cont3ok b c1 then
          match r1 with
          | [] => (0xFFFD, [], false)
          | c2 :: r2 =>
              if isCont c2 then
                ((b - 0xE0) * 4096 + (c1 - 0x80) * 64 + (c2 - 0x80), r2, true)
              else (0xFFFD, c2 :: r2, false)
        else (0xFFFD, c1 :: r1, false)
  else if b ≤ 0xF4 then
    match rest with
    | [] => (0xFFFD, [], false)
    | c1 :: r1 =>
        if cont4ok b c1 then
          match r1 with
          | [] => (0xFFFD, [], false)
          | c2 :: r2 =>
              if isCont c2 then
                match r2 with
                | [] => (0xFFFD, [], false)
                | c3 :: r3 =>
                    if isCont c3 then
                      ((b - 0xF0) * 0x40000 + (c1 - 0x80) * 4096 +
                        (c2 - 0x80) * 64 + (c3 - 0x80), r3, true)
                    else (0xFFFD, c3 :: r3, false)
              else (0xFFFD, c2 :: r2, false)
        else (0xFFFD, c1 :: r1, false)
  else (0xFFFD, rest, false)

theorem utf8Step_rest_length (b : Nat) (rest : List Nat) :
    (utf8Step b rest).2.1.length ≤ rest.length := by
  unfold utf8Step
  repeat' split
  all_goals simp_all
  all_goals omega

/-- The replacing UTF-8 decoder: scalar values of the decoded text. -/
def decodeUtf8 (l : List Nat) : List Nat :=
  match l with
  | [] => []
  | b :: rest => (utf8Step b rest).1 :: decodeUtf8 (utf8Step b rest).2.1
termination_by l.length
decreasing_by
  simp only [List.length_cons]
  exact Nat.lt_succ_of_le (utf8Step_rest_length _ _)

/-- The strict UTF-8 decoder: `none` as soon as any step is malformed. -/
def decodeUtf8Strict (l : List Nat) : Option (List Nat) :=
  match l with
  | [] => some []
  | b :: rest =>
      if (utf8Step b rest).2.2 then
        (decodeUtf8Strict (utf8Step b rest).2.1).map (fun t => (utf8Step b rest).1 :: t)
      else none
termination_by l.length
decreasing_by
  simp only [List.length_cons]
  exact Nat.lt_succ_of_le (utf8Step_rest_length _ _)

theorem decodeUtf8_nil : decodeUtf8 [] = [] := by
  rw [decodeUtf8.eq_def]

theorem decodeUtf8_cons (b : Nat) (rest : List Nat) :
    decodeUtf8 (b :: rest) = (utf8Step b rest).1 :: decodeUtf8 (utf8Step b rest).2.1 := by
  rw [decodeUtf8.eq_def]

theorem utf8Step_1byte {c : Nat} (h : c ≤ 0x7F) (rest : List Nat) :
    utf8Step c rest = (c, rest, true) := by
  simp only [utf8Step, if_pos h]

theorem utf8Step_2byte {c : Nat} (h1 : 0x80 ≤ c) (h2 : c ≤ 0x7FF) (rest : List Nat) :
    utf8Step (0xC0 + c / 64) ((0x80 + c % 64) :: rest) = (c, rest, true) := by
  have hcont : isCont (0x80 + c % 64) := by unfold isCont; omega
  simp only [utf8Step,
    if_neg (show ¬(0xC0 + c / 64 ≤ 0x7F) by omega),
    if_neg (show ¬(0xC0 + c / 64 < 0xC2) by omega),
    if_pos (show 0xC0 + c / 64 ≤ 0xDF by omega),
    if_pos hcont]
  have : (0xC0 + c / 64 - 0xC0) * 64 + (0x80 + c % 64 - 0x80) = c := by omega
  rw [this]

theorem utf8Step_3byte {c : Nat} (h1 : 0x800 ≤ c) (h2 : c ≤ 0xFFFF)
    (hs : ¬(0xD800 ≤ c ∧ c ≤ 0xDFFF)) (rest : List Nat) :
    utf8Step (0xE0 + c / 4096)
      ((0x80 + (c / 64) % 64) :: (0x80 + c % 64) :: rest) = (c, rest, true) := by
  have hc1 : cont3ok (0xE0 + c / 4096) (0x80 + (c / 64) % 64) := by
    unfold cont3ok isCont; omega
  have hc2 : isCont (0x80 + c % 64) := by unfold isCont; omega
  simp only [utf8Step,
    if_neg (show ¬(0xE0 + c / 4096 ≤ 0x7F) by omega),
    if_neg (show ¬(0xE0 + c / 4096 < 0xC2) by omega),
    if_neg (show ¬(0xE0 + c / 4096 ≤ 0xDF) by omega),
    if_pos (show 0xE0 + c / 4096 ≤ 0xEF by omega),
    if_pos hc1, if_pos hc2]
  have : (0xE0 + c / 4096 - 0xE0) * 4096 + (0x80 + (c / 64) % 64 - 0x80) * 64 +
      (0x80 + c % 64 - 0x80) = c := by omega
  rw [this]

theorem utf8Step_4byte {c : Nat} (h1 : 0x10000 ≤ c) (h2 : c ≤ 0x10FFFF) (rest : List Nat) :
    utf8Step (0xF0 + c / 0x40000)
      ((0x80 + (c / 4096) % 64) :: (0x80 + (c / 64) % 64) :: (0x80 + c % 64) :: rest) =
      (c, rest, true) := by
  have hc1 : cont4ok (0xF0 + c / 0x40000) (0x80 + (c / 4096) % 64) := by
    unfold cont4ok isCont; omega
  have hc2 : isCont (0x80 + (c / 64) % 64) := by unfold isCont; omega
  have hc3 : isCont (0x80 + c % 64) := by unfold isCont; omega
  simp only [utf8Step,
    if_neg (show ¬(0xF0 + c / 0x40000 ≤ 0x7F) by omega),
    if_neg (show ¬(0xF0 + c / 0x40000 < 0xC2) by omega),
    if_neg (show ¬(0xF0 + c / 0x40000 ≤ 0xDF) by omega),
    if_neg (show ¬(0xF0 + c / 0x40000 ≤ 0xEF) by omega),
    if_pos (show 0xF0 + c / 0x40000 ≤ 0xF4 by omega),
    if_pos hc1, if_pos hc2, if_pos hc3]
  have : (0xF0 + c / 0x40000 - 0xF0) * 0x40000 + (0x80 + (c / 4096) % 64 - 0x80) * 4096 +
      (0x80 + (c / 64) % 64 - 0x80) * 64 + (0x80 + c % 64 - 0x80) = c := by omega
  rw [this]

/-- Decoding the encoding of one valid scalar peels it off unchanged. -/
theorem decodeUtf8_encodeChar {c : Nat} (h : validScalar c) (rest : List Nat) :
    decodeUtf8 (utf8EncodeChar c ++ rest) = c :: decodeUtf8 rest := by
  rcases h with ⟨hlt, hsur⟩
  by_cases h1 : c ≤ 0x7F
  · rw [utf8EncodeChar, if_pos h1]
    simp only [List.cons_append, List.nil_append]
    rw [decodeUtf8_cons, utf8Step_1byte h1]
  · by_cases h2 : c ≤ 0x7FF
    · rw [utf8EncodeChar, if_neg h1, if_pos h2]
      simp only [List.cons_append, List.nil_append]
      rw [decodeUtf8_cons, utf8Step_2byte (by omega) h2]
    · by_cases h3 : c ≤ 0xFFFF
      · rw [utf8EncodeChar, if_neg h1, if_neg h2, if_pos h3]
        simp only [List.cons_append, List.nil_append]
        rw [decodeUtf8_cons, utf8Step_3byte (by omega) h3 hsur]
      · rw [utf8EncodeChar, if_neg h1, if_neg h2, if_neg h3]
        simp only [List.cons_append, List.nil_append]
        rw [decodeUtf8_cons, utf8Step_4byte (by omega) (by omega)]

/-- Round trip: decoding the UTF-8 encoding of a valid scalar sequence gives it
back. -/
theorem decodeUtf8_utf8Encode {s : List Nat} (h : ∀ c ∈ s, validScalar c) :
    decodeUtf8 (utf8Encode s) = s := by
  induction s with
  | nil => simpa [utf8Encode] using decodeUtf8_nil
  | cons c cs ih =>
      rw [utf8Encode, decodeUtf8_encodeChar (h c (by simp)),
        ih (fun x hx => h x (by simp [hx]))]

theorem utf8Step_fst_of_not_ok {b : Nat} {rest : List Nat}
    (h : (utf8Step b rest).2.2 = false) : (utf8Step b rest).1 = 0xFFFD := by
  revert h
  unfold utf8Step
  repeat' split
  all_goals simp_all

theorem decodeUtf8Strict_nil : decodeUtf8Strict [] = some [] := by
  rw [decodeUtf8Strict.eq_def]

theorem decodeUtf8Strict_cons (b : Nat) (rest : List Nat) :
    decodeUtf8Strict (b :: rest) =
      if (utf8Step b rest).2.2 then
        (decodeUtf8Strict (utf8Step b rest).2.1).map (fun t => (utf8Step b rest).1 :: t)
      else none := by
  rw [decodeUtf8Strict.eq_def]

/-- If the strict decoder fails, the replacing decoder emitted U+FFFD somewhere
(bounded-length auxiliary form). -/
theorem replacement_of_strict_none_aux (n : Nat) :
    ∀ l : List Nat, l.length ≤ n → decodeUtf8Strict l = none →
      0xFFFD ∈ decodeUtf8 l := by
  induction n with
  | zero =>
      intro l hl h
      have : l = [] := List.length_eq_zero.mp (Nat.le_zero.mp hl)
      rw [this, decodeUtf8Strict_nil] at h
      exact absurd h (by simp)
  | succ n ih =>
      intro l hl h
      match l with
      | [] =>
          rw [decodeUtf8Strict_nil] at h
          exact absurd h (by simp)
      | b :: rest =>
          rw [decodeUtf8_cons]
          cases hok : (utf8Step b rest).2.2 with
          | true =>
              rw [decodeUtf8Strict_cons, if_pos hok, Option.map_eq_none'] at h
              have hlen : (utf8Step b rest).2.1.length ≤ n := by
                have := utf8Step_rest_length b rest
                simp only [List.length_cons] at hl
                omega
              exact List.mem_cons_of_mem _ (ih _ hlen h)
          | false =>
              rw [utf8Step_fst_of_not_ok hok]
              exact List.mem_cons_self _ _

/-- If the strict decoder fails, the replacing decoder emitted U+FFFD. -/
theorem replacement_of_strict_none {l : List Nat}
    (h : decodeUtf8Strict l = none) : 0xFFFD ∈ decodeUtf8 l :=
  replacement_of_strict_none_aux l.length l le_rfl h

/-- Modelled from the spec: BOM sniffing of `encoding_rs::Encoding::decode` —
a leading UTF-8 byte-order mark `EF BB BF` is stripped before decoding. -/
def stripBom (l : List Nat) : List Nat :=
  if l.take 3 = [0xEF, 0xBB, 0xBF] then l.drop 3 else l

/-- The text encodings of the model.  Modelled from the spec: `encoding_rs` is
external; the model keeps UTF-8 (the only encoding any claim decodes with) and
one representative single-byte legacy encoding. -/
inductive Encoding where
  | utf8
  | windows1252
  deriving DecidableEq, Repr

/-- Modelled from the spec: the windows-1252 byte-to-scalar table is external
detail; only its shape (one scalar per byte) matters here. -/
def w1252Byte (b : Nat) : Nat := b

/-- Modelled from the spec: `Encoding::decode` — strip BOM, decode, replace
malformed sequences. -/
def encDecode : Encoding → List Nat → List Nat
  | .utf8, l => decodeUtf8 (stripBom l)
  | .windows1252, l => (stripBom l).map w1252Byte

/-- ASCII whitespace, for label/parameter trimming. -/
def asciiWhite (c : Char) : Bool := c = ' ' || c = '\t' || c = '\n' || c = '\r'

/-- Trim ASCII whitespace from both ends of a character list. -/
def trimList (l : List Char) : List Char :=
  ((l.dropWhile asciiWhite).reverse.dropWhile asciiWhite).reverse

/-- Lower-case one ASCII character. -/
def lowerChar (c : Char) : Char := if c.isUpper then Char.ofNat (c.toNat + 32) else c

/-- Split a character list at every occurrence of `sep` (the splitter keeps
empty segments, like `str::split`). -/
def splitList (sep : Char) : List Char → List (List Char)
  | [] => [[]]
  | c :: rest =>
      match splitList sep rest with
      | [] => if c = sep then [[], [c]] else [[c]]
      | h :: t => if c = sep then [] :: h :: t else (c :: h) :: t

/-- Modelled from the spec: `encoding_rs` label normalization (ASCII whitespace
trimmed, ASCII-case-insensitive). -/
def normLabel (s : String) : String := String.mk ((trimList s.toList).map lowerChar)

/-- Modelled from the spec: `Encoding::for_label`, truncated to the label rows
of the encodings the model keeps; every other label is unrecognized. -/
def forLabel (s : String) : Option Encoding :=
  let l := normLabel s
  if l = "utf-8" ∨ l = "utf8" ∨ l = "unicode-1-1-utf-8" then some .utf8
  else if l = "windows-1252" ∨ l = "iso-8859-1" ∨ l = "latin1" ∨ l = "l1" ∨
      l = "ascii" ∨ l = "us-ascii" then some .windows1252
  else none

/-- A parsed media type.  Modelled from the spec: the `mime` crate is external;
only the essence and the parameter list matter. -/
structure Mime where
  essence : String
  params : List (String × String)
  deriving DecidableEq, Repr

/-- One `key=value` parameter segment: name lower-cased and trimmed, value
trimmed. -/
def parseParam (p : List Char) : Option (String × String) :=
  match splitList '=' p with
  | [k, v] => some (String.mk ((trimList k).map lowerChar), String.mk (trimList v))
  | _ => none

/-- Modelled from the spec: `str::parse::<Mime>` — an essence containing a
slash followed by `;`-separated parameters; anything else fails to parse. -/
def mimeParse (s : String) : Option Mime :=
  match splitList ';' s.toList with
  | [] => none
  | essence :: params =>
      if (trimList essence).contains '/' then
        some { essence := String.mk ((trimList essence).map lowerChar),
               params := params.filterMap parseParam }
      else none

/-- `Mime::get_param`. -/
def Mime.getParam (m : Mime) (k : String) : Option String :=
  (m.params.find? (fun p => p.1 == k)).map (fun p => p.2)

/-- The `Content-Type` chain of `text_with_charset` (response.rs 167-175):
header value → parsed mime → `charset` parameter. -/
def charsetOf (headers : HeaderMap) : Option String :=
  ((hmGet headers "content-type").bind mimeParse).bind (fun m => m.getParam "charset")

/-- `Response::text_with_charset` (response.rs 166-182): resolve the charset
parameter, fall back to the supplied default name, resolve the label falling
back to UTF-8, then decode the collected body bytes.  Decoded text is the
sequence of Unicode scalar values. -/
def Response.textWithCharset (r : Response) (defaultEncoding : String) :
    Except Error (List Nat) :=
  let encodingName := (charsetOf r.headers).getD defaultEncoding
  let encoding := (forLabel encodingName).getD .utf8
  (r.bytes).map (encDecode encoding)

/-- `Response::text` (response.rs 121-133): with the `charset` feature, a thin
alias for `text_with_charset "utf-8"`. -/
def Response.text (r : Response) : Except Error (List Nat) :=
  r.textWithCharset "utf-8"

/-! ### BOM lemmas -/

theorem stripBom_bom_append (l : List Nat) :
    stripBom ([0xEF, 0xBB, 0xBF] ++ l) = l := by
  simp [stripBom]

/-- The UTF-8 encoding of a sequence not starting with U+FEFF never starts
with the UTF-8 byte-order mark. -/
theorem utf8Encode_take3_ne_bom {s : List Nat} (hv : ∀ c ∈ s, validScalar c)
    (hh : ∀ c, s.head? = some c → c ≠ 0xFEFF) :
    (utf8Encode s).take 3 ≠ [0xEF, 0xBB, 0xBF] := by
  match s with
  | [] => simp [utf8Encode]
  | c :: cs =>
      have hc := hv c (by simp)
      have hcf : c ≠ 0xFEFF := hh c rfl
      rcases hc with ⟨hlt, hsur⟩
      rw [utf8Encode]
      by_cases h1 : c ≤ 0x7F
      · rw [utf8EncodeChar, if_pos h1]
        intro hEq
        simp only [List.cons_append, List.nil_append, List.take_succ_cons,
          List.cons_eq_cons] at hEq
        omega
      · by_cases h2 : c ≤ 0x7FF
        · rw [utf8EncodeChar, if_neg h1, if_pos h2]
          intro hEq
          simp only [List.cons_append, List.nil_append, List.take_succ_cons,
            List.cons_eq_cons] at hEq
          omega
        · by_cases h3 : c ≤ 0xFFFF
          · rw [utf8EncodeChar, if_neg h1, if_neg h2, if_pos h3]
            intro hEq
            simp only [List.cons_append, List.nil_append, List.take_succ_cons,
              List.take_zero, List.cons_eq_cons, and_true] at hEq
            rcases hEq with ⟨e0, e1, e2⟩
            have : c = 0xFEFF := by omega
            exact hcf this
          · rw [utf8EncodeChar, if_neg h1, if_neg h2, if_neg h3]
            intro hEq
            simp only [List.cons_append, List.nil_append, List.take_succ_cons,
              List.cons_eq_cons] at hEq
            omega

theorem stripBom_utf8Encode {s : List Nat} (hv : ∀ c ∈ s, validScalar c)
    (hh : ∀ c, s.head? = some c → c ≠ 0xFEFF) :
    stripBom (utf8Encode s) = utf8Encode s := by
  rw [stripBom, if_neg (utf8Encode_take3_ne_bom hv hh)]

/-! ### Lemmas about overwriting insertion (builder-time header writes) -/

theorem hmGet_filter_ne {k k' : String} (h : k' ≠ k) (m : HeaderMap) :
    hmGet (m.filter (fun p => !(p.1 == k'))) k = hmGet m k := by
  induction m with
  | nil => rfl
  | cons p t ih =>
      by_cases hp : p.1 = k'
      · have hk : (p.1 == k) = false := by simp [hp, h]
        simp only [List.filter_cons]
        rw [show (!(p.1 == k')) = false by simp [hp]]
        simp only [Bool.false_eq_true, if_false, ih]
        simp only [hmGet, List.find?, hk]
      · simp only [List.filter_cons]
        rw [show (!(p.1 == k')) = true by simp [hp]]
        by_cases hq : p.1 = k
        · simp [hmGet, List.find?, hq]
        · simp only [hmGet, List.find?]
          rw [show (p.1 == k) = false by simp [hq]]
          exact ih

theorem hmGet_filter_self (m : HeaderMap) (k : String) :
    hmGet (m.filter (fun p => !(p.1 == k))) k = none := by
  induction m with
  | nil => rfl
  | cons p t ih =>
      by_cases hp : p.1 = k
      · simp only [List.filter_cons]
        rw [show (!(p.1 == k)) = false by simp [hp]]
        simpa only [Bool.false_eq_true, if_false] using ih
      · simp only [List.filter_cons]
        rw [show (!(p.1 == k)) = true by simp [hp]]
        simp only [if_true]
        simp only [hmGet, List.find?]
        rw [show (p.1 == k) = false by simp [hp]]
        exact ih

theorem hmGet_hmInsert_self (m : HeaderMap) (k : String) (v : HeaderValue) :
    hmGet (hmInsert m k v) k = some v := by
  rw [hmInsert, hmGet_append, hmGet_filter_self]
  simp [hmGet]

theorem hmGet_hmInsert_ne {k k' : String} (h : k' ≠ k) (m : HeaderMap) (v : HeaderValue) :
    hmGet (hmInsert m k' v) k = hmGet m k := by
  rw [hmInsert, hmGet_append, hmGet_filter_ne h]
  cases hx : hmGet m k with
  | none => simp [hmGet, show (k' == k) = false by simp [h]]
  | some w => simp

theorem hmGet_insertAll_of_not_mem {k : String} :
    ∀ (H : HeaderMap) (m : HeaderMap), (∀ p ∈ H, p.1 ≠ k) →
      hmGet (insertAll m H) k = hmGet m k := by
  intro H
  induction H with
  | nil => intro m _; rfl
  | cons p t ih =>
      intro m h
      rw [show insertAll m (p :: t) = insertAll (hmInsert m p.1 p.2) t from rfl]
      rw [ih (hmInsert m p.1 p.2) (fun q hq => h q (by simp [hq]))]
      exact hmGet_hmInsert_ne (h p (by simp)) m p.2

/-- When the supplied collection has pairwise distinct names, inserting all of
its pairs makes lookups agree with the collection itself. -/
theorem hmGet_insertAll_nodup {k : String} :
    ∀ (H : HeaderMap) (m : HeaderMap), (H.map Prod.fst).Nodup →
      hmContains H k = true → hmGet (insertAll m H) k = hmGet H k := by
  intro H
  induction H with
  | nil => intro m _ hc; simp [hmContains] at hc
  | cons p t ih =>
      intro m hnd hc
      rw [List.map_cons, List.nodup_cons] at hnd
      rw [show insertAll m (p :: t) = insertAll (hmInsert m p.1 p.2) t from rfl]
      by_cases hp : p.1 = k
      · have ht : ∀ q ∈ t, q.1 ≠ k := by
          intro q hq hqk
          exact hnd.1 (by rw [hp, ← hqk]; exact List.mem_map_of_mem Prod.fst hq)
        rw [hmGet_insertAll_of_not_mem t (hmInsert m p.1 p.2) ht, hp,
          hmGet_hmInsert_self]
        simp [hmGet, List.find?, hp]
      · have hc' : hmContains t k = true := by
          simp only [hmContains, List.any_cons, Bool.or_eq_true, beq_iff_eq] at hc
          rcases hc with h | h
          · exact absurd h hp
          · simpa [hmContains] using h
        rw [ih (hmInsert m p.1 p.2) hnd.2 hc']
        simp only [hmGet, List.find?]
        rw [show (p.1 == k) = false by simp [hp]]

/-! ### Merge idempotence lemmas -/

theorem hmContains_mergeHeaders_left {R : HeaderMap} {k : String}
    (h : hmContains R k = true) (D : HeaderMap) :
    hmContains (mergeHeaders R D) k = true := by
  rcases mergeHeaders_eq_append D R with ⟨ext, hext⟩
  rw [hext, hmContains_append, h, Bool.true_or]

theorem hmContains_mergeHeaders_of_defaults {D : HeaderMap} {k : String}
    (hD : hmContains D k = true) (R : HeaderMap) :
    hmContains (mergeHeaders R D) k = true := by
  cases hR : hmContains R k with
  | true => exact hmContains_mergeHeaders_left hR D
  | false =>
      have hget := hmGet_mergeHeaders_of_not_contains D R k hR hD
      have hsome := hmGet_isSome_of_contains hD
      cases hc : hmContains (mergeHeaders R D) k with
      | true => rfl
      | false =>
          rw [hmGet_none_of_not_contains hc] at hget
          rw [← hget] at hsome
          simp at hsome

theorem mergeHeaders_eq_self_of_contains :
    ∀ (D T : HeaderMap), (∀ p ∈ D, hmContains T p.1 = true) →
      mergeHeaders T D = T := by
  intro D
  induction D with
  | nil => intro T _; rfl
  | cons kv rest ih =>
      intro T h
      rw [mergeHeaders, if_pos (by rw [h kv (by simp)])]
      exact ih T (fun p hp => h p (by simp [hp]))

/-! ## Claim theorems -/

/-- C1: merging client default headers into request headers (merge(R, D))
leaves every header already present in R unchanged, binds a header absent from
R and present in D to D's value for it, and removes or reorders no existing
entry of R (the request headers remain an unchanged prefix of the result); D
is an input of the pure merge and is unaffected. -/
theorem C1_merge_headers (D R : HeaderMap) (h : String) :
    (hmContains R h = true → hmGet (mergeHeaders R D) h = hmGet R h) ∧
    (hmContains R h = false → hmContains D h = true →
      hmGet (mergeHeaders R D) h = hmGet D h) ∧
    (∃ ext : HeaderMap, mergeHeaders R D = R ++ ext) :=
  ⟨fun hR => hmGet_mergeHeaders_of_contains D hR,
   fun hR hD => hmGet_mergeHeaders_of_not_contains D R h hR hD,
   mergeHeaders_eq_append D R⟩

theorem C1_merge_headers_witness :
    hmGet (mergeHeaders [("content-type", "text/plain")]
        [("content-type", "application/json"), ("x-custom", "flibbertigibbet")])
        "content-type" = some "text/plain" ∧
    hmGet (mergeHeaders [("content-type", "text/plain")]
        [("content-type", "application/json"), ("x-custom", "flibbertigibbet")])
        "x-custom" = some "flibbertigibbet" :=
  ⟨((C1_merge_headers
      [("content-type", "application/json"), ("x-custom", "flibbertigibbet")]
      [("content-type", "text/plain")] "content-type").1 (by decide)).trans (by decide),
   ((C1_merge_headers
      [("content-type", "application/json"), ("x-custom", "flibbertigibbet")]
      [("content-type", "text/plain")] "x-custom").2.1 (by decide) (by decide)).trans
      (by decide)⟩

/-- C7: `error_for_status` and `error_for_status_ref` return a Status-kind
error carrying the response's URL and status code exactly when the status is a
client error (4xx) or a server error (5xx); otherwise the response passes
through unchanged. -/
theorem C7_error_for_status (r : Response) :
    ((isClientError r.status ∨ isServerError r.status) →
      r.errorForStatus = .error (.status r.url r.status) ∧
      r.errorForStatusRef = .error (.status r.url r.status)) ∧
    (¬(isClientError r.status ∨ isServerError r.status) →
      r.errorForStatus = .ok r ∧ r.errorForStatusRef = .ok r) := by
  constructor
  · intro h
    constructor
    · simp only [Response.errorForStatus]
      rw [if_pos h]
    · simp only [Response.errorForStatusRef]
      rw [if_pos h]
  · intro h
    constructor
    · simp only [Response.errorForStatus]
      rw [if_neg h]
    · simp only [Response.errorForStatusRef]
      rw [if_neg h]

theorem C7_error_for_status_witness :
    Response.errorForStatus { status := 404, headers := [], body := [], url := "https://hyper.rs" }
      = .error (.status "https://hyper.rs" 404) ∧
    Response.errorForStatus { status := 200, headers := [], body := [], url := "https://hyper.rs" }
      = .ok { status := 200, headers := [], body := [], url := "https://hyper.rs" } :=
  ⟨((C7_error_for_status
      { status := 404, headers := [], body := [], url := "https://hyper.rs" }).1
      (by decide)).1,
   ((C7_error_for_status
      { status := 200, headers := [], body := [], url := "https://hyper.rs" }).2
      (by decide)).1⟩

/-- C8: `bytes_stream` over a body of data, trailer, data frames yields exactly
the two data chunks as successful items in order; in general non-data frames
are filtered out of the stream, an error poll yields an error item, and end of
body ends the stream with no further item. -/
theorem C8_bytes_stream (r : Response) (b1 b2 : List Nat)
    (evs : List FrameEvent) (e : String) :
    (r.body = [.frame (.data b1), .frame .trailers, .frame (.data b2)] →
      r.bytesStream = [.ok b1, .ok b2]) ∧
    ((∀ ev ∈ evs, ∃ f, ev = .frame f) →
      dataStream evs = evs.filterMap (fun ev =>
        match ev with
        | .frame (.data b) => some (.ok b)
        | _ => none)) ∧
    (dataStream (.errE e :: evs) = .error (.body e) :: dataStream evs) ∧
    dataStream ([] : List FrameEvent) = [] := by
  refine ⟨?_, ?_, ?_, rfl⟩
  · intro hbody
    rw [Response.bytesStream, hbody]
    simp [dataStream]
  · induction evs with
    | nil => intro _; rfl
    | cons ev t ih =>
        intro h
        have ih' := ih (fun x hx => h x (by simp [hx]))
        rcases h ev (by simp) with ⟨f, hf⟩
        subst hf
        cases f with
        | data b => simp [dataStream, List.filterMap_cons, ih']
        | trailers => simp [dataStream, List.filterMap_cons, ih']
  · simp [dataStream]

theorem C8_bytes_stream_witness :
    Response.bytesStream
      { status := 200, headers := [], url := "u",
        body := [.frame (.data [1, 2]), .frame .trailers, .frame (.data [3])] }
      = [.ok [1, 2], .ok [3]] :=
  (C8_bytes_stream
    { status := 200, headers := [], url := "u",
      body := [.frame (.data [1, 2]), .frame .trailers, .frame (.data [3])] }
    [1, 2] [3] [] "e").1 rfl

/-- C9 (implicit): a fresh `ClientBuilder` has an empty header set and no
deferred error, so `ClientBuilder::new().build()` succeeds; hence the `unwrap`
inside `Client::new` (and `Client::default`, which delegates to it) never
panics. -/
theorem C9_fresh_builder_builds :
    ClientBuilder.new.config.headers = [] ∧
    ClientBuilder.new.config.error = none ∧
    ClientBuilder.new.build = .ok { config := { headers := [], error := none } } ∧
    Client.new = some { config := { headers := [], error := none } } :=
  ⟨rfl, rfl, rfl, rfl⟩

/-- C10 (implicit): header merging is idempotent — merging the client defaults
a second time changes nothing, since after the first merge every default name
is present. -/
theorem C10_merge_idempotent (R D : HeaderMap) :
    mergeHeaders (mergeHeaders R D) D = mergeHeaders R D := by
  refine mergeHeaders_eq_self_of_contains D (mergeHeaders R D) (fun p hp => ?_)
  refine hmContains_mergeHeaders_of_defaults ?_ R
  exact List.any_eq_true.mpr ⟨p, hp, by simp⟩

/-- C3: a `user_agent` value whose conversion fails records a deferred
Builder-kind error (no panic: `userAgent` is total), leaves the builder's
default headers unchanged, and makes the subsequent `build()` fail with that
Builder-kind error; conversely `build()` succeeds with a Client whenever no
deferred error was recorded. -/
theorem C3_user_agent_deferred_error (b : ClientBuilder) (e : String) :
    ((b.userAgent (.error e)).config.headers = b.config.headers) ∧
    ((b.userAgent (.error e)).config.error = some (.builder e)) ∧
    ((b.userAgent (.error e)).build = .error (.builder e)) ∧
    (b.config.error = none → b.build = .ok { config := b.config }) := by
  refine ⟨rfl, rfl, rfl, fun h => ?_⟩
  simp [ClientBuilder.build, h]

theorem C3_user_agent_deferred_error_witness :
    (ClientBuilder.new.userAgent (.error "invalid header value")).config.headers = [] ∧
    (ClientBuilder.new.userAgent (.error "invalid header value")).build
      = .error (.builder "invalid header value") ∧
    ClientBuilder.new.build = .ok { config := { headers := [], error := none } } :=
  ⟨(C3_user_agent_deferred_error ClientBuilder.new "invalid header value").1,
   (C3_user_agent_deferred_error ClientBuilder.new "invalid header value").2.2.1,
   (C3_user_agent_deferred_error ClientBuilder.new "invalid header value").2.2.2 rfl⟩

/-- C4: later writers win at build time — the second of two valid `user_agent`
calls leaves its value as the `user-agent` entry of the built Config (the
build succeeding whenever no deferred error exists), and `default_headers`
overwrites any same-named entry of the builder's defaults with the supplied
collection's value. -/
theorem C4_build_time_last_writer_wins (b : ClientBuilder) (v1 v2 : HeaderValue)
    (H : HeaderMap) (k : String) :
    hmGet (((b.userAgent (.ok v1)).userAgent (.ok v2)).config.headers) "user-agent"
      = some v2 ∧
    (b.config.error = none →
      ((b.userAgent (.ok v1)).userAgent (.ok v2)).build =
        .ok { config := ((b.userAgent (.ok v1)).userAgent (.ok v2)).config }) ∧
    ((H.map Prod.fst).Nodup → hmContains H k = true →
      hmGet ((b.defaultHeaders H).config.headers) k = hmGet H k) := by
  refine ⟨?_, fun h => ?_, fun hnd hc => ?_⟩
  · simp only [ClientBuilder.userAgent]
    exact hmGet_hmInsert_self _ _ _
  · simp [ClientBuilder.build, ClientBuilder.userAgent, h]
  · exact hmGet_insertAll_nodup H b.config.headers hnd hc

theorem C4_build_time_last_writer_wins_witness :
    hmGet (((ClientBuilder.new.userAgent (.ok "FooBar/1.2.3")).userAgent
        (.ok "Another-User-Agent/42")).config.headers) "user-agent"
      = some "Another-User-Agent/42" ∧
    hmGet ((ClientBuilder.new.defaultHeaders
        [("content-type", "application/json"), ("x-custom", "flibbertigibbet")]).config.headers)
        "x-custom" = some "flibbertigibbet" :=
  ⟨(C4_build_time_last_writer_wins ClientBuilder.new "FooBar/1.2.3"
      "Another-User-Agent/42" [] "x").1,
   ((C4_build_time_last_writer_wins ClientBuilder.new "a" "b"
      [("content-type", "application/json"), ("x-custom", "flibbertigibbet")]
      "x-custom").2.2 (by decide) (by decide)).trans (by decide)⟩

/-- C2: with a per-request timeout set, the timer elapsing before the send
completes yields a Request-kind error whose cause is "timed out"; the send
completing before the timer yields its real outcome (response or transport
error) unaffected; with no timeout, the send is awaited directly with no
race (a send that never completes leaves the call suspended). -/
theorem C2_timeout_race (cl : Client) (send : WstdRequest → SendOutcome)
    (req : Request) (d : Nat) (hconv : req.wstdConvertible = true) :
    ((req.timeout = some d ∧
        send ⟨mergeHeaders req.headers cl.config.headers, req.url⟩ = .never) →
      cl.executeRequest send req = .done (.error (.request .timedOut))) ∧
    (∀ t res, (req.timeout = some d ∧
        send ⟨mergeHeaders req.headers cl.config.headers, req.url⟩ = .completesAt t res ∧
        d < t) →
      cl.executeRequest send req = .done (.error (.request .timedOut))) ∧
    (∀ t res, (req.timeout = some d ∧
        send ⟨mergeHeaders req.headers cl.config.headers, req.url⟩ = .completesAt t res ∧
        t < d) →
      cl.executeRequest send req = .done (sendResultToResponse res req.url)) ∧
    (req.timeout = none →
      cl.executeRequest send req =
        match send ⟨mergeHeaders req.headers cl.config.headers, req.url⟩ with
        | .never => .diverges
        | .completesAt _ res => .done (sendResultToResponse res req.url)) := by
  refine ⟨?_, ?_, ?_, ?_⟩
  · rintro ⟨ht, hs⟩
    simp only [Client.executeRequest, Request.asWstd, hconv, if_true, ht, hs]
  · rintro t res ⟨ht, hs, hd⟩
    simp only [Client.executeRequest, Request.asWstd, hconv, if_true, ht, hs]
    rw [if_neg (by omega)]
  · rintro t res ⟨ht, hs, hd⟩
    simp only [Client.executeRequest, Request.asWstd, hconv, if_true, ht, hs]
    rw [if_pos hd]
  · intro ht
    simp only [Client.executeRequest, Request.asWstd, hconv, if_true, ht]

theorem C2_timeout_race_witness :
    Client.executeRequest
      { config := { headers := [], error := none } }
      (fun _ => .never)
      { headers := [], url := "https://hyper.rs", timeout := some 1, wstdConvertible := true }
      = .done (.error (.request .timedOut)) :=
  (C2_timeout_race
    { config := { headers := [], error := none } }
    (fun _ => .never)
    { headers := [], url := "https://hyper.rs", timeout := some 1, wstdConvertible := true }
    1 rfl).1 ⟨rfl, rfl⟩

/-- C5: with no charset parameter in `Content-Type`, `text()` decodes the body
as UTF-8 — the UTF-8 encoding of a string (not itself starting with U+FEFF),
optionally preceded by a byte-order mark, decodes back to the string with the
leading BOM removed; and a byte sequence containing invalid UTF-8 (one the
strict decoder rejects) decodes with the replacement character substituted for
the malformed sequence. -/
theorem C5_text_utf8_roundtrip (r : Response) (s : List Nat) (bad : List Nat)
    (hcs : charsetOf r.headers = none)
    (hv : ∀ c ∈ s, validScalar c)
    (hbom : ∀ c, s.head? = some c → c ≠ 0xFEFF) :
    (r.body = [.frame (.data (utf8Encode s))] → r.text = .ok s) ∧
    (r.body = [.frame (.data ([0xEF, 0xBB, 0xBF] ++ utf8Encode s))] → r.text = .ok s) ∧
    (decodeUtf8Strict bad = none → 0xFFFD ∈ decodeUtf8 bad) := by
  have hlab : (forLabel ((charsetOf r.headers).getD "utf-8")).getD Encoding.utf8
      = Encoding.utf8 := by
    rw [hcs]; decide
  refine ⟨?_, ?_, fun hb => replacement_of_strict_none hb⟩
  · intro hbody
    have hbytes : r.bytes = .ok (utf8Encode s) := by
      rw [Response.bytes, hbody]
      simp [collectBytes, Except.map]
    simp only [Response.text, Response.textWithCharset, hlab, hbytes]
    simp only [Except.map]
    rw [encDecode, stripBom_utf8Encode hv hbom, decodeUtf8_utf8Encode hv]
  · intro hbody
    have hbytes : r.bytes = .ok ([0xEF, 0xBB, 0xBF] ++ utf8Encode s) := by
      rw [Response.bytes, hbody]
      simp [collectBytes, Except.map]
    simp only [Response.text, Response.textWithCharset, hlab, hbytes]
    simp only [Except.map]
    rw [encDecode, stripBom_bom_append, decodeUtf8_utf8Encode hv]

/-- C6: `text_with_charset` resolves the decode encoding with priority — the
`charset` parameter of a present, parsable `Content-Type` header first,
otherwise the supplied default encoding name, and UTF-8 when the resolved name
is not a recognized encoding — then decodes the full collected body with the
resolved encoding. -/
theorem C6_charset_resolution (r : Response) (deflt : String) :
    (∀ v m cset, hmGet r.headers "content-type" = some v → mimeParse v = some m →
      m.getParam "charset" = some cset →
      (charsetOf r.headers).getD deflt = cset) ∧
    (charsetOf r.headers = none → (charsetOf r.headers).getD deflt = deflt) ∧
    (∀ e, forLabel ((charsetOf r.headers).getD deflt) = some e →
      r.textWithCharset deflt = (r.bytes).map (encDecode e)) ∧
    (forLabel ((charsetOf r.headers).getD deflt) = none →
      r.textWithCharset deflt = (r.bytes).map (encDecode .utf8)) := by
  refine ⟨?_, ?_, ?_, ?_⟩
  · intro v m cset hv hm hc
    simp [charsetOf, hv, hm, hc]
  · intro h
    rw [h]
    rfl
  · intro e he
    simp only [Response.textWithCharset, he, Option.getD_some]
  · intro he
    simp only [Response.textWithCharset, he, Option.getD_none]

theorem C5_text_utf8_roundtrip_witness :
    Response.text
      { status := 200, headers := [],
        body := [.frame (.data (utf8Encode [104, 105]))], url := "u" }
      = .ok [104, 105] :=
  (C5_text_utf8_roundtrip
    { status := 200, headers := [],
      body := [.frame (.data (utf8Encode [104, 105]))], url := "u" }
    [104, 105] []
    rfl
    (by intro c hc; simp at hc; rcases hc with rfl | rfl <;> decide)
    (by intro c hc; simp at hc; omega)).1 rfl

theorem C6_charset_resolution_witness :
    (charsetOf [("content-type", "text/plain; charset=windows-1252")]).getD "utf-8"
      = "windows-1252" ∧
    Response.textWithCharset
      { status := 200, headers := [("content-type", "text/plain; charset=windows-1252")],
        body := [], url := "u" }
      "utf-8" = .ok [] :=
  ⟨(C6_charset_resolution
      { status := 200, headers := [("content-type", "text/plain; charset=windows-1252")],
        body := [], url := "u" }
      "utf-8").1 "text/plain; charset=windows-1252"
      { essence := "text/plain", params := [("charset", "windows-1252")] }
      "windows-1252" (by decide) (by decide) (by decide),
   ((C6_charset_resolution
      { status := 200, headers := [("content-type", "text/plain; charset=windows-1252")],
        body := [], url := "u" }
      "utf-8").2.2.1 Encoding.windows1252 (by decide)).trans rfl⟩

end Reqwest
